import Mathlib

/-!
Verification of the credential registry in `contracts/src/credentials.rs`
(Soroban smart contract).  The contract state is shallowly embedded as a
`RegistryState`; the Soroban storage maps are modelled as association lists
so that the number of stored entries is observable.  The host-provided
authentication proof of `require_auth` is modelled as a boolean `authed`
flag on each call; panics in the Rust source become `Except.error` values.
-/

namespace CredRegistry

/-- Association-list lookup: value of the first binding of key `k`. -/
def assocGet {α β : Type} [DecidableEq α] (k : α) : List (α × β) → Option β
  | [] => none
  | (k', v) :: m => if k' = k then some v else assocGet k m

/-- Association-list update: replace the first binding of `k`, or append a
new binding when `k` is absent (Soroban `storage().set` semantics). -/
def assocSet {α β : Type} [DecidableEq α] (k : α) (v : β) : List (α × β) → List (α × β)
  | [] => [(k, v)]
  | (k', v') :: m => if k' = k then (k, v) :: m else (k', v') :: assocSet k v m

/-- Identities (Soroban `Address`) are abstract; modelled as naturals. -/
abbrev Identity := Nat

/-- The `Credential` record of `credentials.rs`, field for field. -/
structure Credential where
  id : Nat
  issuer : Identity
  recipient : Identity
  title : String
  description : String
  course_id : String
  completion_date : Nat
  ipfs_hash : String
  is_revoked : Bool
deriving DecidableEq, Repr

/-- The registry's persistent state: the `admin` instance-storage entry
(`Symbol "admin"`), the `CredentialCount` instance-storage entry (absent
until first written, read with `unwrap_or(0)`), the `Credential(id)`
persistent map and the `UserCredentials(address)` persistent map. -/
structure RegistryState where
  admin : Option Identity
  credentialCount : Option Nat
  credentials : List (Nat × Credential)
  userCredentials : List (Identity × List Nat)
deriving DecidableEq, Repr

/-- Error outcomes of the contract calls.  The Rust source signals all of
them by `panic!` / trapping; the spec's taxonomy names the first three.
`AdminMissing` is the trap of reading an absent `admin` instance entry and
`CounterOverflow` is the `u64` overflow trap of `count += 1` (the crate is
built with the Soroban release profile, which checks overflow). -/
inductive CredError where
  | Unauthenticated
  | Unauthorized
  | NotFound
  | AdminMissing
  | CounterOverflow
deriving DecidableEq, Repr

/-- Largest `u64` value. -/
def u64Max : Nat := 2 ^ 64 - 1

/-- State before any call: `admin` as set (or not) by the external
initialization flow, counter never written, both maps empty. -/
def initState (a : Option Identity) : RegistryState :=
  { admin := a, credentialCount := none, credentials := [], userCredentials := [] }

/-- Modelled from the spec: `user_profile::add_credential` is called from
`issue_credential` but the `user_profile` module is not in the sources.
Per the spec it appends `next_id` to `recipient_index[recipient]`,
creating the list if absent. -/
def add_credential (s : RegistryState) (recipient : Identity) (credId : Nat) :
    RegistryState :=
  let old := (assocGet recipient s.userCredentials).getD []
  { s with userCredentials := assocSet recipient (old ++ [credId]) s.userCredentials }

/-- The `issue_credential` function of `credentials.rs`.  `authed` is the
outcome of `issuer.require_auth()`; `now` is `env.ledger().timestamp()`.
On success it returns the new id together with the updated state. -/
def issue_credential (s : RegistryState) (authed : Bool) (issuer recipient : Identity)
    (title description course_id ipfs_hash : String) (now : Nat) :
    Except CredError (Nat × RegistryState) :=
  if authed = false then .error .Unauthenticated else
  match s.admin with
  | none => .error .AdminMissing
  | some admin =>
    if issuer ≠ admin then .error .Unauthorized else
    let count := s.credentialCount.getD 0
    if count = u64Max then .error .CounterOverflow else
    let next := count + 1
    let credential : Credential :=
      { id := next, issuer := issuer, recipient := recipient, title := title,
        description := description, course_id := course_id,
        completion_date := now, ipfs_hash := ipfs_hash, is_revoked := false }
    let s1 := { s with credentials := assocSet next credential s.credentials }
    let s2 := add_credential s1 recipient next
    let s3 := { s2 with credentialCount := some next }
    .ok (next, s3)

/-- The `verify_credential` function of `credentials.rs`.  It reads the
state and returns only a boolean, so it cannot mutate any state. -/
def verify_credential (s : RegistryState) (credential_id : Nat) :
    Except CredError Bool :=
  match assocGet credential_id s.credentials with
  | none => .error .NotFound
  | some credential => if credential.is_revoked then .ok false else .ok true

/-- The `revoke_credential` function of `credentials.rs`.  `authed` is the
outcome of `revoker.require_auth()`. -/
def revoke_credential (s : RegistryState) (authed : Bool) (credential_id : Nat)
    (revoker : Identity) : Except CredError RegistryState :=
  if authed = false then .error .Unauthenticated else
  match s.admin with
  | none => .error .AdminMissing
  | some admin =>
    if revoker ≠ admin then .error .Unauthorized else
    match assocGet credential_id s.credentials with
    | none => .error .NotFound
    | some credential =>
      .ok { s with credentials :=
              assocSet credential_id { credential with is_revoked := true } s.credentials }

/-- The `get_user_credentials` function of `credentials.rs`:
the stored list, or the empty list when the key is absent. -/
def get_user_credentials (s : RegistryState) (user : Identity) : List Nat :=
  (assocGet user s.userCredentials).getD []

/-- The `get_credential` function of `credentials.rs`. -/
def get_credential (s : RegistryState) (credential_id : Nat) :
    Except CredError Credential :=
  match assocGet credential_id s.credentials with
  | none => .error .NotFound
  | some credential => .ok credential

/-- The `get_credential_count` function of `credentials.rs`:
the stored counter, or `0` when it was never written. -/
def get_credential_count (s : RegistryState) : Nat :=
  s.credentialCount.getD 0

/-- A mutating call of the contract, with its authentication outcome and,
for `issue`, the ledger timestamp.  The read-only calls (`verify`,
`get_credential`, `get_user_credentials`, `get_credential_count`) return
no state and therefore need no transition. -/
inductive Op where
  | issue (authed : Bool) (issuer recipient : Identity)
      (title description course_id ipfs_hash : String) (now : Nat)
  | revoke (authed : Bool) (credential_id : Nat) (revoker : Identity)

/-- One transaction: a failing call aborts with no state change
(the host's all-or-nothing discipline). -/
def applyOp (s : RegistryState) : Op → RegistryState
  | .issue authed issuer recipient t d c h now =>
    match issue_credential s authed issuer recipient t d c h now with
    | .ok (_, s') => s'
    | .error _ => s
  | .revoke authed credId revoker =>
    match revoke_credential s authed credId revoker with
    | .ok s' => s'
    | .error _ => s

/-- Run a sequence of calls. -/
def runOps (s : RegistryState) : List Op → RegistryState
  | [] => s
  | op :: ops => runOps (applyOp s op) ops

/-- Result of one call when it is a successful issuance: the returned id
and the recipient. -/
def opIssued (s : RegistryState) : Op → Option (Nat × Identity)
  | .issue authed issuer recipient t d c h now =>
    match issue_credential s authed issuer recipient t d c h now with
    | .ok (i, _) => some (i, recipient)
    | .error _ => none
  | .revoke _ _ _ => none

/-- Ids returned by the successful issue calls of a trace, in order. -/
def issuedIds (s : RegistryState) : List Op → List Nat
  | [] => []
  | op :: ops =>
    (match opIssued s op with
     | some (i, _) => [i]
     | none => []) ++ issuedIds (applyOp s op) ops

/-- Ids returned by the successful issue calls whose recipient is `r`,
in order. -/
def issuedTo (s : RegistryState) (r : Identity) : List Op → List Nat
  | [] => []
  | op :: ops =>
    (match opIssued s op with
     | some (i, rcp) => if rcp = r then [i] else []
     | none => []) ++ issuedTo (applyOp s op) r ops

/-- States reachable from an initial state by some sequence of calls. -/
def Reachable (s : RegistryState) : Prop :=
  ∃ a ops, s = runOps (initState a) ops

/-! ### Association-list lemmas -/

theorem assocGet_assocSet_same {α β : Type} [DecidableEq α] (k : α) (v : β)
    (m : List (α × β)) : assocGet k (assocSet k v m) = some v := by
  induction m with
  | nil => simp [assocGet, assocSet]
  | cons p m ih =>
    obtain ⟨k', v'⟩ := p
    by_cases h : k' = k <;> simp [assocGet, assocSet, h, ih]

theorem assocGet_assocSet_ne {α β : Type} [DecidableEq α] {j k : α} (v : β)
    (m : List (α × β)) (hjk : j ≠ k) :
    assocGet j (assocSet k v m) = assocGet j m := by
  induction m with
  | nil => simp [assocGet, assocSet, Ne.symm hjk]
  | cons p m ih =>
    obtain ⟨k', v'⟩ := p
    by_cases h : k' = k
    · simp [assocGet, assocSet, h, Ne.symm hjk]
    · simp [assocGet, assocSet, h, ih]

theorem assocSet_length_absent {α β : Type} [DecidableEq α] {k : α} (v : β)
    {m : List (α × β)} (h : assocGet k m = none) :
    (assocSet k v m).length = m.length + 1 := by
  induction m with
  | nil => simp [assocSet]
  | cons p m ih =>
    obtain ⟨k', v'⟩ := p
    by_cases hk : k' = k
    · simp [assocGet, hk] at h
    · simp only [assocGet, hk, if_false] at h
      simp [assocSet, hk, ih h]

theorem assocSet_length_present {α β : Type} [DecidableEq α] {k : α} (v : β)
    {m : List (α × β)} {v₀ : β} (h : assocGet k m = some v₀) :
    (assocSet k v m).length = m.length := by
  induction m with
  | nil => simp [assocGet] at h
  | cons p m ih =>
    obtain ⟨k', v'⟩ := p
    by_cases hk : k' = k
    · simp [assocSet, hk]
    · simp only [assocGet, hk, if_false] at h
      simp [assocSet, hk, ih h]

theorem assocSet_self {α β : Type} [DecidableEq α] {k : α} {v : β}
    {m : List (α × β)} (h : assocGet k m = some v) :
    assocSet k v m = m := by
  induction m with
  | nil => simp [assocGet] at h
  | cons p m ih =>
    obtain ⟨k', v'⟩ := p
    by_cases hk : k' = k
    · simp only [assocGet, hk, if_true, Option.some.injEq] at h
      simp [assocSet, hk, h]
    · simp only [assocGet, hk, if_false] at h
      simp [assocSet, hk, ih h]

/-! ### Shapes of successful and failing calls -/

/-- The credential record built by a successful `issue_credential`. -/
def mkCredential (i : Nat) (issuer recipient : Identity)
    (title description course_id ipfs_hash : String) (now : Nat) : Credential :=
  { id := i, issuer := issuer, recipient := recipient, title := title,
    description := description, course_id := course_id,
    completion_date := now, ipfs_hash := ipfs_hash, is_revoked := false }

theorem issue_ok_shape {s : RegistryState} {authed : Bool} {issuer recipient : Identity}
    {t d c h : String} {now : Nat} {i : Nat} {s' : RegistryState}
    (hok : issue_credential s authed issuer recipient t d c h now = .ok (i, s')) :
    authed = true ∧ s.admin = some issuer ∧
    i = get_credential_count s + 1 ∧
    s' = { admin := s.admin,
           credentialCount := some i,
           credentials := assocSet i (mkCredential i issuer recipient t d c h now)
                            s.credentials,
           userCredentials := assocSet recipient
                                (get_user_credentials s recipient ++ [i])
                                s.userCredentials } := by
  unfold issue_credential at hok
  cases authed with
  | false => simp at hok
  | true =>
    simp only [if_false, Bool.true_eq_false] at hok
    cases hadm : s.admin with
    | none => rw [hadm] at hok; exact absurd hok (by simp)
    | some adm =>
      rw [hadm] at hok
      by_cases hiss : issuer = adm
      · subst hiss
        simp only [ne_eq, not_true_eq_false, if_false, ite_false] at hok
        by_cases hovf : s.credentialCount.getD 0 = u64Max
        · simp [hovf] at hok
        · simp only [hovf, if_false, ite_false, Except.ok.injEq, Prod.mk.injEq] at hok
          obtain ⟨hi, hs⟩ := hok
          refine ⟨rfl, rfl, ?_, ?_⟩
          · simpa [get_credential_count] using hi.symm
          · subst hs
            simp [add_credential, get_user_credentials, get_credential_count,
              assocGet_assocSet_ne, hadm, hi, mkCredential]
      · simp [hiss] at hok

theorem revoke_ok_shape {s : RegistryState} {authed : Bool} {credId : Nat}
    {revoker : Identity} {s' : RegistryState}
    (hok : revoke_credential s authed credId revoker = .ok s') :
    authed = true ∧ s.admin = some revoker ∧
    ∃ cred, assocGet credId s.credentials = some cred ∧
      s' = { s with credentials :=
               assocSet credId { cred with is_revoked := true } s.credentials } := by
  unfold revoke_credential at hok
  cases authed with
  | false => simp at hok
  | true =>
    simp only [if_false, Bool.true_eq_false] at hok
    cases hadm : s.admin with
    | none => rw [hadm] at hok; exact absurd hok (by simp)
    | some adm =>
      rw [hadm] at hok
      by_cases hrev : revoker = adm
      · subst hrev
        simp only [ne_eq, not_true_eq_false, if_false, ite_false] at hok
        cases hget : assocGet credId s.credentials with
        | none => rw [hget] at hok; exact absurd hok (by simp)
        | some cred =>
          rw [hget] at hok
          simp only [Except.ok.injEq] at hok
          exact ⟨rfl, rfl, cred, rfl, hok.symm⟩
      · simp [hrev] at hok

theorem applyOp_issue_error {s : RegistryState} {authed : Bool}
    {issuer recipient : Identity} {t d c h : String} {now : Nat} {e : CredError}
    (he : issue_credential s authed issuer recipient t d c h now = .error e) :
    applyOp s (.issue authed issuer recipient t d c h now) = s := by
  simp [applyOp, he]

theorem applyOp_issue_ok {s : RegistryState} {authed : Bool}
    {issuer recipient : Identity} {t d c h : String} {now : Nat} {i : Nat}
    {s' : RegistryState}
    (hok : issue_credential s authed issuer recipient t d c h now = .ok (i, s')) :
    applyOp s (.issue authed issuer recipient t d c h now) = s' := by
  simp [applyOp, hok]

theorem applyOp_revoke_error {s : RegistryState} {authed : Bool} {credId : Nat}
    {revoker : Identity} {e : CredError}
    (he : revoke_credential s authed credId revoker = .error e) :
    applyOp s (.revoke authed credId revoker) = s := by
  simp [applyOp, he]

theorem applyOp_revoke_ok {s : RegistryState} {authed : Bool} {credId : Nat}
    {revoker : Identity} {s' : RegistryState}
    (hok : revoke_credential s authed credId revoker = .ok s') :
    applyOp s (.revoke authed credId revoker) = s' := by
  simp [applyOp, hok]

/-! ### Trace lemmas for the counter and the returned ids -/

theorem issuedIds_range_count (ops : List Op) : ∀ s : RegistryState,
    issuedIds s ops =
      List.range' (get_credential_count s + 1) (issuedIds s ops).length ∧
    get_credential_count (runOps s ops) =
      get_credential_count s + (issuedIds s ops).length := by
  induction ops with
  | nil => intro s; simp [issuedIds, runOps]
  | cons op ops ih =>
    intro s
    cases op with
    | issue authed issuer recipient t d c h now =>
      cases hres : issue_credential s authed issuer recipient t d c h now with
      | error e =>
        have happ := applyOp_issue_error hres
        simp only [issuedIds, opIssued, runOps, hres, happ, List.nil_append]
        exact ih s
      | ok p =>
        obtain ⟨i, s'⟩ := p
        obtain ⟨-, -, hi, hs'⟩ := issue_ok_shape hres
        have happ := applyOp_issue_ok hres
        have hcount' : get_credential_count s' = i := by
          rw [hs']; simp [get_credential_count]
        obtain ⟨ih1, ih2⟩ := ih s'
        simp only [issuedIds, opIssued, runOps, hres, happ, List.singleton_append,
          List.length_cons]
        constructor
        · rw [List.range'_succ, ← hi]
          rw [ih1, hcount', hi]
          simp [List.length_range']
        · rw [ih2, hcount', hi]; omega
    | revoke authed credId revoker =>
      cases hres : revoke_credential s authed credId revoker with
      | error e =>
        have happ := applyOp_revoke_error hres
        simp only [issuedIds, opIssued, runOps, hres, happ, List.nil_append]
        exact ih s
      | ok s' =>
        obtain ⟨-, -, cred, -, hs'⟩ := revoke_ok_shape hres
        have happ := applyOp_revoke_ok hres
        have hcount' : get_credential_count s' = get_credential_count s := by
          rw [hs']; simp [get_credential_count]
        obtain ⟨ih1, ih2⟩ := ih s'
        simp only [issuedIds, opIssued, runOps, hres, happ, List.nil_append]
        rw [ih1, ih2, hcount']
        simp

/-! ### Trace lemma for the recipient index -/

theorem userCreds_run (ops : List Op) : ∀ (s : RegistryState) (r : Identity),
    get_user_credentials (runOps s ops) r =
      get_user_credentials s r ++ issuedTo s r ops := by
  induction ops with
  | nil => intro s r; simp [issuedTo, runOps]
  | cons op ops ih =>
    intro s r
    cases op with
    | issue authed issuer recipient t d c h now =>
      cases hres : issue_credential s authed issuer recipient t d c h now with
      | error e =>
        have happ := applyOp_issue_error hres
        simp only [issuedTo, opIssued, runOps, hres, happ, List.nil_append]
        exact ih s r
      | ok p =>
        obtain ⟨i, s'⟩ := p
        obtain ⟨-, -, -, hs'⟩ := issue_ok_shape hres
        have happ := applyOp_issue_ok hres
        have hidx : get_user_credentials s' r =
            get_user_credentials s r ++ (if recipient = r then [i] else []) := by
          rw [hs']
          by_cases hr : recipient = r
          · subst hr
            simp [get_user_credentials, assocGet_assocSet_same]
          · simp [get_user_credentials, assocGet_assocSet_ne _ _ (Ne.symm hr), hr]
        rw [runOps, happ, ih s' r, hidx]
        simp only [issuedTo, opIssued, hres, happ]
        rw [List.append_assoc]
    | revoke authed credId revoker =>
      cases hres : revoke_credential s authed credId revoker with
      | error e =>
        have happ := applyOp_revoke_error hres
        simp only [issuedTo, opIssued, runOps, hres, happ, List.nil_append]
        exact ih s r
      | ok s' =>
        obtain ⟨-, -, cred, -, hs'⟩ := revoke_ok_shape hres
        have happ := applyOp_revoke_ok hres
        have hidx : get_user_credentials s' r = get_user_credentials s r := by
          rw [hs']; simp [get_user_credentials]
        rw [runOps, happ, ih s' r, hidx]
        simp [issuedTo, opIssued, hres, happ]

/-! ### The store invariant: the counter counts the stored credentials and
every stored id lies in `[1, count]` -/

def StoreInv (s : RegistryState) : Prop :=
  get_credential_count s = s.credentials.length ∧
  ∀ i c, assocGet i s.credentials = some c → 1 ≤ i ∧ i ≤ get_credential_count s

theorem storeInv_init (a : Option Identity) : StoreInv (initState a) := by
  constructor
  · simp [initState, get_credential_count]
  · intro i c hget
    simp [initState, assocGet] at hget

theorem storeInv_fresh {s : RegistryState} (h : StoreInv s) :
    assocGet (get_credential_count s + 1) s.credentials = none := by
  cases hget : assocGet (get_credential_count s + 1) s.credentials with
  | none => rfl
  | some c =>
    have := (h.2 _ c hget).2
    omega

theorem storeInv_applyOp {s : RegistryState} (op : Op) (h : StoreInv s) :
    StoreInv (applyOp s op) := by
  cases op with
  | issue authed issuer recipient t d c hh now =>
    cases hres : issue_credential s authed issuer recipient t d c hh now with
    | error e => rw [applyOp_issue_error hres]; exact h
    | ok p =>
      obtain ⟨i, s'⟩ := p
      obtain ⟨-, -, hi, hs'⟩ := issue_ok_shape hres
      rw [applyOp_issue_ok hres, hs']
      have hfresh : assocGet i s.credentials = none := by
        rw [hi]; exact storeInv_fresh h
      constructor
      · simp only [get_credential_count, Option.getD_some]
        rw [assocSet_length_absent _ hfresh, ← h.1, hi]
      · intro j cj hget
        simp only [get_credential_count, Option.getD_some]
        by_cases hji : j = i
        · omega
        · rw [assocGet_assocSet_ne _ _ hji] at hget
          have := h.2 j cj hget
          omega
  | revoke authed credId revoker =>
    cases hres : revoke_credential s authed credId revoker with
    | error e => rw [applyOp_revoke_error hres]; exact h
    | ok s' =>
      obtain ⟨-, -, cred, hget, hs'⟩ := revoke_ok_shape hres
      rw [applyOp_revoke_ok hres, hs']
      constructor
      · simp only [get_credential_count]
        rw [assocSet_length_present _ hget, ← h.1]
        rfl
      · intro j cj hgj
        simp only [get_credential_count]
        by_cases hji : j = credId
        · subst hji
          have := h.2 j cred hget
          exact this
        · rw [assocGet_assocSet_ne _ _ hji] at hgj
          exact h.2 j cj hgj

theorem storeInv_runOps (ops : List Op) : ∀ s : RegistryState,
    StoreInv s → StoreInv (runOps s ops) := by
  induction ops with
  | nil => intro s h; exact h
  | cons op ops ih => intro s h; exact ih _ (storeInv_applyOp op h)

theorem storeInv_reachable {s : RegistryState} (h : Reachable s) : StoreInv s := by
  obtain ⟨a, ops, rfl⟩ := h
  exact storeInv_runOps ops _ (storeInv_init a)

theorem storeInv_zero {s : RegistryState} (h : StoreInv s) :
    assocGet 0 s.credentials = none := by
  cases hget : assocGet 0 s.credentials with
  | none => rfl
  | some c =>
    have := (h.2 0 c hget).1
    omega

/-! ### Revocation is monotone along any trace -/

theorem revoked_applyOp {s : RegistryState} {credId : Nat} {c : Credential} (op : Op)
    (hinv : StoreInv s) (hget : assocGet credId s.credentials = some c)
    (hrev : c.is_revoked = true) :
    ∃ c', assocGet credId (applyOp s op).credentials = some c' ∧
      c'.is_revoked = true := by
  cases op with
  | issue authed issuer recipient t d cc hh now =>
    cases hres : issue_credential s authed issuer recipient t d cc hh now with
    | error e => rw [applyOp_issue_error hres]; exact ⟨c, hget, hrev⟩
    | ok p =>
      obtain ⟨i, s'⟩ := p
      obtain ⟨-, -, hi, hs'⟩ := issue_ok_shape hres
      rw [applyOp_issue_ok hres, hs']
      have hne : credId ≠ i := by
        have := (hinv.2 credId c hget).2
        omega
      refine ⟨c, ?_, hrev⟩
      simpa [assocGet_assocSet_ne _ _ hne] using hget
  | revoke authed rid revoker =>
    cases hres : revoke_credential s authed rid revoker with
    | error e => rw [applyOp_revoke_error hres]; exact ⟨c, hget, hrev⟩
    | ok s' =>
      obtain ⟨-, -, cred, hgc, hs'⟩ := revoke_ok_shape hres
      rw [applyOp_revoke_ok hres, hs']
      by_cases hid : credId = rid
      · subst hid
        exact ⟨{ cred with is_revoked := true }, by simp [assocGet_assocSet_same], rfl⟩
      · exact ⟨c, by simpa [assocGet_assocSet_ne _ _ hid] using hget, hrev⟩

theorem revoked_runOps (ops : List Op) : ∀ (s : RegistryState) (credId : Nat)
    (c : Credential), StoreInv s → assocGet credId s.credentials = some c →
    c.is_revoked = true →
    ∃ c', assocGet credId (runOps s ops).credentials = some c' ∧
      c'.is_revoked = true := by
  induction ops with
  | nil => intro s credId c _ hget hrev; exact ⟨c, hget, hrev⟩
  | cons op ops ih =>
    intro s credId c hinv hget hrev
    obtain ⟨c', hget', hrev'⟩ := revoked_applyOp op hinv hget hrev
    exact ih _ credId c' (storeInv_applyOp op hinv) hget' hrev'

/-! ### Concrete scenario used to instantiate the theorems -/

/-- Admin `0` issues a credential to recipient `1` at time `5`. -/
def wOp : Op := .issue true 0 1 "t" "d" "c" "h" 5

/-- Admin `0` revokes credential `1`. -/
def wOpR : Op := .revoke true 1 0

/-- Admin `0` issues a second credential, to recipient `2`, at time `6`. -/
def wOp2 : Op := .issue true 0 2 "t2" "d2" "c2" "h2" 6

/-- The credential produced by `wOp`. -/
def wCred : Credential :=
  { id := 1, issuer := 0, recipient := 1, title := "t", description := "d",
    course_id := "c", completion_date := 5, ipfs_hash := "h", is_revoked := false }

/-- The credential `wCred` after revocation. -/
def wCredR : Credential := { wCred with is_revoked := true }

/-- State after `wOp` from `initState (some 0)`. -/
def wS1 : RegistryState :=
  { admin := some 0, credentialCount := some 1,
    credentials := [(1, wCred)], userCredentials := [(1, [1])] }

/-- State after `wOp` then `wOpR` from `initState (some 0)`. -/
def wS2 : RegistryState :=
  { admin := some 0, credentialCount := some 1,
    credentials := [(1, wCredR)], userCredentials := [(1, [1])] }

theorem wS1_run : runOps (initState (some 0)) [wOp] = wS1 := by rfl

theorem wS2_run : runOps (initState (some 0)) [wOp, wOpR] = wS2 := by rfl

theorem wIssue_run :
    issue_credential (initState (some 0)) true 0 1 "t" "d" "c" "h" 5 = .ok (1, wS1) := by
  rfl

theorem wRevoke_run : revoke_credential wS1 true 1 0 = .ok wS2 := by rfl

/-! ### The claims -/

/-- Claim C1: `get_user_credentials r` returns exactly the ids of the
credentials issued to `r`, in issuance order, and the empty list for a
recipient with none; every successful issue appends the new id to the
recipient's index list, creating the list if absent.  The index is written
by `user_profile::add_credential`, which is modelled from the spec. -/
theorem getUserCredentials_issuance_order :
    (∀ (a : Option Identity) (ops : List Op) (r : Identity),
      get_user_credentials (runOps (initState a) ops) r =
        issuedTo (initState a) r ops) ∧
    (∀ (s : RegistryState) (authed : Bool) (issuer recipient : Identity)
        (t d c h : String) (now i : Nat) (s' : RegistryState),
      issue_credential s authed issuer recipient t d c h now = .ok (i, s') →
      get_user_credentials s' recipient =
        get_user_credentials s recipient ++ [i]) := by
  constructor
  · intro a ops r
    rw [userCreds_run]
    simp [initState, get_user_credentials, assocGet]
  · intro s authed issuer recipient t d c h now i s' hok
    obtain ⟨-, -, -, hs'⟩ := issue_ok_shape hok
    rw [hs']
    simp [get_user_credentials, assocGet_assocSet_same]

theorem getUserCredentials_issuance_order_witness :
    get_user_credentials (runOps (initState (some 0)) [wOp, wOpR]) 1 =
      issuedTo (initState (some 0)) 1 [wOp, wOpR] ∧
    get_user_credentials (runOps (initState (some 0)) [wOp, wOpR]) 2 = [] ∧
    get_user_credentials wS1 1 =
      get_user_credentials (initState (some 0)) 1 ++ [1] := by
  refine ⟨getUserCredentials_issuance_order.1 (some 0) [wOp, wOpR] 1, ?_, ?_⟩
  · have h := getUserCredentials_issuance_order.1 (some 0) [wOp, wOpR] 2
    rw [h]; rfl
  · exact getUserCredentials_issuance_order.2 (initState (some 0)) true 0 1
      "t" "d" "c" "h" 5 1 wS1 (by rfl)

/-- Claim C2: over any sequence of calls from the initial state, the ids
returned by the successful issue calls are exactly `1, 2, 3, ...` —
strictly increasing, starting at 1, with no gaps or repeats — and no
credential is ever stored under id 0. -/
theorem issue_ids_strictly_increasing (a : Option Identity) (ops : List Op) :
    issuedIds (initState a) ops =
      List.range' 1 (issuedIds (initState a) ops).length ∧
    List.Pairwise (· < ·) (issuedIds (initState a) ops) ∧
    assocGet 0 (runOps (initState a) ops).credentials = none := by
  have h0 : get_credential_count (initState a) = 0 := by
    simp [initState, get_credential_count]
  obtain ⟨h1, -⟩ := issuedIds_range_count ops (initState a)
  rw [h0] at h1
  refine ⟨by simpa using h1, ?_, ?_⟩
  · rw [h1]
    exact List.pairwise_lt_range' _ _
  · exact storeInv_zero (storeInv_runOps ops _ (storeInv_init a))

theorem issue_ids_strictly_increasing_witness :
    issuedIds (initState (some 0)) [wOp, wOpR, wOp2] =
      List.range' 1 (issuedIds (initState (some 0)) [wOp, wOpR, wOp2]).length ∧
    List.Pairwise (· < ·) (issuedIds (initState (some 0)) [wOp, wOpR, wOp2]) ∧
    assocGet 0 (runOps (initState (some 0)) [wOp, wOpR, wOp2]).credentials = none :=
  issue_ids_strictly_increasing (some 0) [wOp, wOpR, wOp2]

/-- Claim C3: `verify_credential` fails with `NotFound` exactly when no
credential is stored under the id, and otherwise returns the negation of
the `is_revoked` flag.  It is a pure read: in this embedding it returns
only a boolean and takes the state immutably, so it cannot change state. -/
theorem verify_credential_spec (s : RegistryState) (credId : Nat) :
    (verify_credential s credId = .error .NotFound ↔
      assocGet credId s.credentials = none) ∧
    (∀ c, assocGet credId s.credentials = some c →
      verify_credential s credId = .ok (!c.is_revoked)) := by
  constructor
  · constructor
    · intro h
      cases hget : assocGet credId s.credentials with
      | none => rfl
      | some c =>
        rw [verify_credential, hget] at h
        cases hrv : c.is_revoked <;> simp [hrv] at h
    · intro h
      simp [verify_credential, h]
  · intro c hget
    rw [verify_credential, hget]
    cases hrv : c.is_revoked <;> simp [hrv]

theorem verify_credential_spec_witness :
    (verify_credential wS1 2 = .error .NotFound ↔
      assocGet 2 wS1.credentials = none) ∧
    verify_credential wS1 1 = .ok (!wCred.is_revoked) ∧
    verify_credential wS2 1 = .ok (!wCredR.is_revoked) := by
  refine ⟨(verify_credential_spec wS1 2).1, ?_, ?_⟩
  · exact (verify_credential_spec wS1 1).2 wCred (by rfl)
  · exact (verify_credential_spec wS2 1).2 wCredR (by rfl)

/-- Claim C4: an authenticated caller that is not the stored admin gets
`Unauthorized` from issue, no credential is created, and the whole state —
in particular the credential count — is unchanged. -/
theorem issue_unauthorized (s : RegistryState) (adm issuer recipient : Identity)
    (t d c h : String) (now : Nat)
    (hadm : s.admin = some adm) (hne : issuer ≠ adm) :
    issue_credential s true issuer recipient t d c h now = .error .Unauthorized ∧
    applyOp s (.issue true issuer recipient t d c h now) = s ∧
    get_credential_count (applyOp s (.issue true issuer recipient t d c h now)) =
      get_credential_count s := by
  have herr : issue_credential s true issuer recipient t d c h now =
      .error .Unauthorized := by
    rw [issue_credential, hadm]
    simp [hne]
  exact ⟨herr, applyOp_issue_error herr, by rw [applyOp_issue_error herr]⟩

theorem issue_unauthorized_witness :
    issue_credential wS1 true 7 2 "t" "d" "c" "h" 9 = .error .Unauthorized ∧
    applyOp wS1 (.issue true 7 2 "t" "d" "c" "h" 9) = wS1 ∧
    get_credential_count (applyOp wS1 (.issue true 7 2 "t" "d" "c" "h" 9)) =
      get_credential_count wS1 :=
  issue_unauthorized wS1 0 7 2 "t" "d" "c" "h" 9 (by rfl) (by decide)

/-- Claim C5: an authenticated caller that is not the stored admin gets
`Unauthorized` from revoke, for any credential id, and the state — in
particular every `is_revoked` flag — is unchanged. -/
theorem revoke_unauthorized (s : RegistryState) (adm revoker : Identity)
    (credId : Nat) (hadm : s.admin = some adm) (hne : revoker ≠ adm) :
    revoke_credential s true credId revoker = .error .Unauthorized ∧
    applyOp s (.revoke true credId revoker) = s := by
  have herr : revoke_credential s true credId revoker = .error .Unauthorized := by
    rw [revoke_credential, hadm]
    simp [hne]
  exact ⟨herr, applyOp_revoke_error herr⟩

theorem revoke_unauthorized_witness :
    revoke_credential wS1 true 1 7 = .error .Unauthorized ∧
    applyOp wS1 (.revoke true 1 7) = wS1 :=
  revoke_unauthorized wS1 0 7 1 (by rfl) (by decide)

/-- Claim C6: revoke is idempotent.  Revoking an already-revoked credential
succeeds and returns the state unchanged, and a second revoke after a
successful one succeeds and yields exactly the state of the first. -/
theorem revoke_idempotent (s : RegistryState) (a : Identity) (credId : Nat)
    (hadm : s.admin = some a) :
    (∀ c, assocGet credId s.credentials = some c → c.is_revoked = true →
      revoke_credential s true credId a = .ok s) ∧
    (∀ s₁, revoke_credential s true credId a = .ok s₁ →
      revoke_credential s₁ true credId a = .ok s₁) := by
  constructor
  · intro c hget hrev
    have hc : { c with is_revoked := true } = c := by
      cases c; simp_all
    rw [revoke_credential, hadm]
    simp [hget, hc, assocSet_self hget]
    rw [← hadm]
  · intro s₁ hok
    obtain ⟨-, hadm', cred, hget, hs₁⟩ := revoke_ok_shape hok
    have hadm₁ : s₁.admin = some a := by
      rw [hs₁]
      exact hadm
    have hget₁ : assocGet credId s₁.credentials =
        some { cred with is_revoked := true } := by
      rw [hs₁]
      simp [assocGet_assocSet_same]
    rw [revoke_credential, hadm₁]
    simp [hget₁, assocSet_self hget₁]
    rw [← hadm₁]

theorem revoke_idempotent_witness :
    revoke_credential wS2 true 1 0 = .ok wS2 ∧
    revoke_credential wS2 true 1 0 = .ok wS2 ∧ wS2 = wS2 := by
  refine ⟨?_, ?_, rfl⟩
  · exact (revoke_idempotent wS2 0 1 (by rfl)).1 wCredR (by rfl) (by rfl)
  · exact (revoke_idempotent wS1 0 1 (by rfl)).2 wS2 (by rfl)

/-- Claim C7: revocation is monotone and terminal.  From any reachable
state in which a stored credential is revoked, after any further sequence
of calls the credential is still stored, still revoked, and
`verify_credential` returns `ok false` on it.  The read-only calls return
no state in this embedding, so only `issue` and `revoke` transitions need
considering. -/
theorem revocation_monotone (s : RegistryState) (credId : Nat) (c : Credential)
    (hreach : Reachable s) (hget : assocGet credId s.credentials = some c)
    (hrev : c.is_revoked = true) (ops : List Op) :
    ∃ c', assocGet credId (runOps s ops).credentials = some c' ∧
      c'.is_revoked = true ∧
      verify_credential (runOps s ops) credId = .ok false := by
  obtain ⟨c', hget', hrev'⟩ :=
    revoked_runOps ops s credId c (storeInv_reachable hreach) hget hrev
  exact ⟨c', hget', hrev', by simp [verify_credential, hget', hrev']⟩

theorem revocation_monotone_witness :
    verify_credential (runOps wS2 [wOp2]) 1 = .ok false := by
  obtain ⟨c', -, -, h⟩ := revocation_monotone wS2 1 wCredR
    ⟨some 0, [wOp, wOpR], by rfl⟩ (by rfl) (by rfl) [wOp2]
  exact h

/-- Claim C8: in every state reachable by a trace, the credential count
equals the number of successful issue calls of the trace and the number of
entries stored in the credential map; on the initial state, and whenever
the counter entry is absent, `get_credential_count` returns 0. -/
theorem credential_count_correct (a : Option Identity) (ops : List Op) :
    get_credential_count (runOps (initState a) ops) =
      (issuedIds (initState a) ops).length ∧
    get_credential_count (runOps (initState a) ops) =
      (runOps (initState a) ops).credentials.length ∧
    get_credential_count (initState a) = 0 ∧
    (∀ s : RegistryState, s.credentialCount = none →
      get_credential_count s = 0) := by
  have h0 : get_credential_count (initState a) = 0 := by
    simp [initState, get_credential_count]
  obtain ⟨-, h2⟩ := issuedIds_range_count ops (initState a)
  refine ⟨by rw [h2, h0]; omega, ?_, h0, ?_⟩
  · exact (storeInv_runOps ops _ (storeInv_init a)).1
  · intro s hs
    simp [get_credential_count, hs]

theorem credential_count_correct_witness :
    get_credential_count (runOps (initState (some 0)) [wOp, wOpR, wOp2]) =
      (issuedIds (initState (some 0)) [wOp, wOpR, wOp2]).length ∧
    get_credential_count (runOps (initState (some 0)) [wOp, wOpR, wOp2]) =
      (runOps (initState (some 0)) [wOp, wOpR, wOp2]).credentials.length ∧
    get_credential_count (initState (some 0)) = 0 ∧
    get_credential_count (initState none) = 0 := by
  have h := credential_count_correct (some 0) [wOp, wOpR, wOp2]
  exact ⟨h.1, h.2.1, h.2.2.1, h.2.2.2 (initState none) (by rfl)⟩

/-- Claim C9: a successful revoke flips only the `is_revoked` field of the
targeted credential: all its other fields are those of the previously
stored record, the admin entry, the counter and the recipient index are
untouched, and every other stored credential is unchanged. -/
theorem revoke_frame (s s' : RegistryState) (authed : Bool) (credId : Nat)
    (revoker : Identity) (j : Nat)
    (hok : revoke_credential s authed credId revoker = .ok s') (hj : j ≠ credId) :
    (∃ c, assocGet credId s.credentials = some c ∧
      assocGet credId s'.credentials = some { c with is_revoked := true }) ∧
    s'.admin = s.admin ∧
    s'.credentialCount = s.credentialCount ∧
    s'.userCredentials = s.userCredentials ∧
    assocGet j s'.credentials = assocGet j s.credentials := by
  obtain ⟨-, -, cred, hget, hs'⟩ := revoke_ok_shape hok
  subst hs'
  exact ⟨⟨cred, hget, by simp [assocGet_assocSet_same]⟩, rfl, rfl, rfl,
    assocGet_assocSet_ne _ _ hj⟩

theorem revoke_frame_witness :
    wS2.admin = wS1.admin ∧ wS2.credentialCount = wS1.credentialCount ∧
    wS2.userCredentials = wS1.userCredentials ∧
    assocGet 2 wS2.credentials = assocGet 2 wS1.credentials := by
  have h := revoke_frame wS1 wS2 true 1 0 2 (by rfl) (by decide)
  exact ⟨h.2.1, h.2.2.1, h.2.2.2.1, h.2.2.2.2⟩

/-- Claim C10: when no admin identity is stored, every issue and every
revoke call fails — the admin lookup precedes every write — and the state
is left unchanged. -/
theorem no_admin_aborts (s : RegistryState) (hadm : s.admin = none) :
    (∀ (authed : Bool) (issuer recipient : Identity) (t d c h : String)
        (now : Nat),
      (∃ e, issue_credential s authed issuer recipient t d c h now = .error e) ∧
      applyOp s (.issue authed issuer recipient t d c h now) = s) ∧
    (∀ (authed : Bool) (credId : Nat) (revoker : Identity),
      (∃ e, revoke_credential s authed credId revoker = .error e) ∧
      applyOp s (.revoke authed credId revoker) = s) := by
  constructor
  · intro authed issuer recipient t d c h now
    have herr : ∃ e,
        issue_credential s authed issuer recipient t d c h now = .error e := by
      cases authed
      · exact ⟨.Unauthenticated, by simp [issue_credential]⟩
      · exact ⟨.AdminMissing, by rw [issue_credential, hadm]; simp⟩
    obtain ⟨e, he⟩ := herr
    exact ⟨⟨e, he⟩, applyOp_issue_error he⟩
  · intro authed credId revoker
    have herr : ∃ e, revoke_credential s authed credId revoker = .error e := by
      cases authed
      · exact ⟨.Unauthenticated, by simp [revoke_credential]⟩
      · exact ⟨.AdminMissing, by rw [revoke_credential, hadm]; simp⟩
    obtain ⟨e, he⟩ := herr
    exact ⟨⟨e, he⟩, applyOp_revoke_error he⟩

theorem no_admin_aborts_witness :
    (∃ e, issue_credential (initState none) true 0 1 "t" "d" "c" "h" 5 =
      .error e) ∧
    applyOp (initState none) (.issue true 0 1 "t" "d" "c" "h" 5) =
      initState none ∧
    (∃ e, revoke_credential (initState none) true 1 0 = .error e) ∧
    applyOp (initState none) (.revoke true 1 0) = initState none := by
  have h := no_admin_aborts (initState none) (by rfl)
  have h1 := h.1 true 0 1 "t" "d" "c" "h" 5
  have h2 := h.2 true 1 0
  exact ⟨h1.1, h1.2, h2.1, h2.2⟩

end CredRegistry
